import Mathlib

/-!
Shallow embedding of `wafreport.c` (RedXanadu/wafreport).

The program reads lines of the form `IN OUT` (two anomaly scores), folds them
into two bounded histograms (one per side) plus per-side invalid counters and
a total counter, and prints per-score frequency, cumulative percentages, mean
and median for each side.

Modelling choices:
- input is a list of lines, each a `List Char` (the `fgets` 24-byte buffer
  chunking of over-long lines is not modelled: every claim is about
  whole-line classification);
- C `int` scores are `Int` (no claim exercises `int` overflow);
- the three `sscanf` calls are embedded directly: `%d` skips whitespace, then
  reads an optional sign followed by at least one decimal digit; the literal
  `-` in the format `-%d` must match the first character of the line exactly;
- C `double` arithmetic on these integer counts is exact, so it is embedded
  in `ℚ`; a C division by zero yields NaN/inf, which has no rational value,
  so the expressions that divide by `scores_read` are fallible and return
  `Option ℚ` (`none` exactly when the C code divides by zero).
-/

def MAX_SCORE : Nat := 65536

/-- C `isspace` on the characters that can occur in a text line. -/
def isSpace (c : Char) : Bool :=
  c = ' ' || c = '\t' || c = '\n' || c = '\r' || c = Char.ofNat 11 || c = Char.ofNat 12

/-- Leading-whitespace skipping performed by the `%d` conversion. -/
def skipSpaces : List Char → List Char
  | [] => []
  | c :: cs => if isSpace c then skipSpaces cs else c :: cs

/-- Consume a maximal run of decimal digits, accumulating their value. -/
def readDigits : List Char → Nat → Nat × List Char
  | [], acc => (acc, [])
  | c :: cs, acc =>
    if c.isDigit then readDigits cs (acc * 10 + (c.toNat - 48)) else (acc, c :: cs)

/-- One `%d` conversion after whitespace has been skipped: optional sign, then
at least one digit; `none` is a matching failure. -/
def scanIntFrom : List Char → Option (Int × List Char)
  | [] => none
  | c :: cs =>
    if c = '-' then
      match cs with
      | [] => none
      | d :: _ =>
        if d.isDigit then
          some (-((readDigits cs 0).1 : Int), (readDigits cs 0).2)
        else none
    else if c = '+' then
      match cs with
      | [] => none
      | d :: _ =>
        if d.isDigit then
          some (((readDigits cs 0).1 : Int), (readDigits cs 0).2)
        else none
    else if c.isDigit then
      some (((readDigits (c :: cs) 0).1 : Int), (readDigits (c :: cs) 0).2)
    else none

/-- The `%d` conversion: skip whitespace, then read a signed integer. -/
def scanInt (s : List Char) : Option (Int × List Char) :=
  scanIntFrom (skipSpaces s)

/-- `sscanf(line, "%d%d", &a, &b) == 2`. -/
def scanTwoInts (s : List Char) : Option (Int × Int) :=
  match scanInt s with
  | none => none
  | some (a, rest) =>
    match scanInt rest with
    | none => none
    | some (b, _) => some (a, b)

/-- `sscanf(line, "%d", &a) == 1`. -/
def scanOneInt (s : List Char) : Option Int :=
  Option.map Prod.fst (scanInt s)

/-- `sscanf(line, "-%d", &b) == 1`: the literal `-` must match the first
character of the line (no whitespace is skipped before a non-space literal),
then `%d` is converted. -/
def scanDashInt (s : List Char) : Option Int :=
  match s with
  | '-' :: rest => Option.map Prod.fst (scanInt rest)
  | _ => none

/-- The three-way classification of one line in `read_in_scores`, first match
wins: `some (score_in, score_out)` when the line is counted (with `-1` the
invalid sentinel assigned by the code), `none` when the line is malformed and
skipped. -/
def classify (s : List Char) : Option (Int × Int) :=
  match scanTwoInts s with
  | some p => some p
  | none =>
    match scanOneInt s with
    | some a => some (a, -1)
    | none =>
      match scanDashInt s with
      | some b => some (-1, b)
      | none => none

/-- One side of the aggregate: a histogram `score_count_*[0..MAX_SCORE]` plus
the `invalid_*` counter. -/
structure Side where
  hist : Nat → Nat
  invalid : Nat

/-- The whole accumulation state: both sides plus the shared `count` of
successfully classified lines. -/
structure Aggregate where
  inb : Side
  outb : Side
  count : Nat

def initSide : Side := ⟨fun _ => 0, 0⟩

def initAgg : Aggregate := ⟨initSide, initSide, 0⟩

/-- Storing one side's score (lines 104-118 of `wafreport.c`): negative
(invalid sentinel included) bumps the invalid counter, a value above
`MAX_SCORE` is clamped into the top bucket, otherwise the exact bucket is
bumped. -/
def storeScore (v : Int) (s : Side) : Side :=
  if v < 0 then
    { s with invalid := s.invalid + 1 }
  else if (MAX_SCORE : Int) < v then
    { s with hist := Function.update s.hist MAX_SCORE (s.hist MAX_SCORE + 1) }
  else
    { s with hist := Function.update s.hist v.toNat (s.hist v.toNat + 1) }

/-- Processing of one input line inside the `while` loop of
`read_in_scores`. -/
def step (ag : Aggregate) (line : List Char) : Aggregate :=
  match classify line with
  | none => ag
  | some (si, so) =>
    { inb := storeScore si ag.inb
      outb := storeScore so ag.outb
      count := ag.count + 1 }

/-- `read_in_scores`: fold the classification loop over all input lines,
starting from the zero-initialised state of `main`. -/
def read_in_scores (lines : List (List Char)) : Aggregate :=
  lines.foldl step initAgg

/-- `psum h n = h 0 + ... + h (n-1)`: the running sum of histogram buckets
strictly below `n`. -/
def psum (h : Nat → Nat) : Nat → Nat
  | 0 => 0
  | n + 1 => psum h n + h n

/-- Sum of all buckets of a side plus its invalid counter. -/
def sideSum (s : Side) : Nat :=
  psum s.hist (MAX_SCORE + 1) + s.invalid

/-- The scanning loop shared by both branches of `avg_median`: starting at
bucket `i` with running sum `acc`, add buckets and stop at the first index
where the running sum reaches `t`; `fuel` buckets remain, and when the loop
runs out the C index variable is left one past the last bucket. -/
def scanAux (h : Nat → Nat) (t : Nat) : Nat → Nat → Nat → Nat
  | _, i, 0 => i
  | acc, i, fuel + 1 =>
    if t ≤ acc + h i then i else scanAux h t (acc + h i) (i + 1) fuel

/-- One full `for (i = 0; i <= MAX_SCORE; i++)` scan of `avg_median` with
threshold `t`. -/
def medianScan (h : Nat → Nat) (t : Nat) : Nat :=
  scanAux h t 0 0 (MAX_SCORE + 1)

/-- `avg_median`: odd totals take one scan with threshold `(n+1)/2`; even
totals take two independent scans with thresholds `n/2` and `n/2 + 1` and
average the two stopping indices. -/
def avg_median (h : Nat → Nat) (scores_read : Nat) : ℚ :=
  if scores_read % 2 = 1 then
    (medianScan h ((scores_read + 1) / 2) : ℚ)
  else
    ((medianScan h (scores_read / 2) : ℚ) + (medianScan h (scores_read / 2 + 1) : ℚ)) / 2

/-- `avg_mean`: accumulate `i * score_count_array[i]` over the whole bucket
range, then divide by `scores_read`. The C code divides unconditionally; a
zero `scores_read` is a division by zero (NaN/inf), modelled as `none`. -/
def avg_mean (h : Nat → Nat) (scores_read : Nat) : Option ℚ :=
  if scores_read = 0 then none
  else
    some (((List.range (MAX_SCORE + 1)).foldl (fun (m : ℚ) (i : Nat) => m + (i : ℚ) * (h i : ℚ)) 0)
      / (scores_read : ℚ))

/-- The percentage expression `100 * ((double) cnt / scores_read)` of
`print_stats`, as an exact rational (meaningful only for a non-zero total). -/
def percentQ (cnt total : Nat) : ℚ :=
  100 * ((cnt : ℚ) / (total : ℚ))

/-- The same percentage expression with the C division by zero made explicit:
`none` exactly when `scores_read = 0` and the C code computes NaN. -/
def percent (cnt total : Nat) : Option ℚ :=
  if total = 0 then none else some (percentQ cnt total)

/-- The ascending list of scores whose bucket is non-empty: exactly the rows
that the `for` loop of `print_stats` prints after the invalid row. -/
def nonzeroScores (h : Nat → Nat) : List Nat :=
  (List.range (MAX_SCORE + 1)).filter (fun i => h i != 0)

/-- Running totals of a list of counts: `runningSums acc l` is the value of
`running_total` after each row when it starts at `acc`. -/
def runningSums : Nat → List Nat → List Nat
  | _, [] => []
  | acc, a :: rest => (acc + a) :: runningSums (acc + a) rest

/-- The sequence of cumulative percentages printed for one side: the invalid
row first (`running_total` starts at the invalid counter), then one row per
non-empty bucket in ascending score order. -/
def cumulList (h : Nat → Nat) (invalid total : Nat) : List ℚ :=
  (runningSums 0 (invalid :: (nonzeroScores h).map h)).map (fun r => percentQ r total)

/-! Concrete inputs used in the claim instances. -/

def line5dash : List Char := "5 -".toList

def lineDash7 : List Char := "- 7".toList

def line5abc : List Char := "5 abc".toList

def lineAbc : List Char := "abc".toList

def lineBothInvalid : List Char := "-1 -1".toList

/-- Histogram {0 ↦ 2, 5 ↦ 1, 10 ↦ 1} (even-median example, total 4). -/
def exHistA : Nat → Nat := fun i =>
  if i = 0 then 2 else if i = 5 then 1 else if i = 10 then 1 else 0

/-- Histogram {0 ↦ 2, 5 ↦ 1, 10 ↦ 2} (odd-median example, total 5). -/
def exHistB : Nat → Nat := fun i =>
  if i = 0 then 2 else if i = 5 then 1 else if i = 10 then 2 else 0

/-- Histogram {5 ↦ 1, 10 ↦ 1} (mean example, total 2). -/
def exHistC : Nat → Nat := fun i =>
  if i = 5 then 1 else if i = 10 then 1 else 0

/-- Histogram {0 ↦ 2, 5 ↦ 1} (cumulative-percentage example, invalid 1,
total 4). -/
def exHistD : Nat → Nat := fun i =>
  if i = 0 then 2 else if i = 5 then 1 else 0

/-! Helper lemmas. -/

theorem psum_succ (h : Nat → Nat) (n : Nat) : psum h (n + 1) = psum h n + h n := rfl

theorem psum_congr (f g : Nat → Nat) : ∀ n, (∀ i, i < n → f i = g i) → psum f n = psum g n := by
  intro n
  induction n with
  | zero => intro _; rfl
  | succ n ih =>
    intro hfg
    rw [psum_succ, psum_succ, ih (fun i hi => hfg i (by omega)), hfg n (by omega)]

theorem psum_zero_fun : ∀ n, psum (fun _ => 0) n = 0 := by
  intro n
  induction n with
  | zero => rfl
  | succ n ih => rw [psum_succ, ih]

theorem psum_update (f : Nat → Nat) (k : Nat) :
    ∀ n, k < n → psum (Function.update f k (f k + 1)) n = psum f n + 1 := by
  intro n
  induction n with
  | zero => intro hk; omega
  | succ n ih =>
    intro hk
    rcases Nat.lt_or_ge k n with hlt | hge
    · rw [psum_succ, psum_succ, ih hlt, Function.update_noteq (by omega)]
      omega
    · have hkn : k = n := by omega
      subst hkn
      rw [psum_succ, psum_succ, Function.update_same,
        psum_congr (Function.update f k (f k + 1)) f k
          (fun i hi => Function.update_noteq (by omega) _ _)]
      omega

theorem psum_high_zero (f : Nat → Nat) (k : Nat) (hz : ∀ i, k ≤ i → f i = 0) :
    ∀ n, k ≤ n → psum f n = psum f k := by
  intro n
  induction n with
  | zero =>
    intro hk
    have : k = 0 := by omega
    rw [this]
  | succ n ih =>
    intro hk
    rcases Nat.lt_or_ge k (n + 1) with hlt | hge
    · have hkn : k ≤ n := by omega
      rw [psum_succ, ih hkn, hz n hkn]
      omega
    · have : k = n + 1 := by omega
      rw [this]

theorem sum_range_high_zero (f : Nat → ℚ) (k n : Nat) (hkn : k ≤ n)
    (hz : ∀ i, k ≤ i → f i = 0) :
    ∑ i in Finset.range n, f i = ∑ i in Finset.range k, f i := by
  refine (Finset.sum_subset (Finset.range_subset.mpr hkn) ?_).symm
  intro x _ hx
  exact hz x (by simpa using hx)

theorem foldl_range_add (f : Nat → ℚ) :
    ∀ (n : Nat) (a : ℚ),
      (List.range n).foldl (fun (m : ℚ) (i : Nat) => m + f i) a
        = a + ∑ i in Finset.range n, f i := by
  intro n
  induction n with
  | zero => intro a; simp
  | succ n ih =>
    intro a
    rw [List.range_succ, List.foldl_append, ih a, Finset.sum_range_succ]
    simp [add_assoc]

theorem scanAux_succ (h : Nat → Nat) (t acc i fuel : Nat) :
    scanAux h t acc i (fuel + 1)
      = if t ≤ acc + h i then i else scanAux h t (acc + h i) (i + 1) fuel := rfl

theorem scanAux_finds (h : Nat → Nat) (t m : Nat) :
    ∀ fuel i, i ≤ m → m < i + fuel →
      (∀ j, i ≤ j → j < m → psum h (j + 1) < t) →
      t ≤ psum h (m + 1) →
      scanAux h t (psum h i) i fuel = m := by
  intro fuel
  induction fuel with
  | zero => intro i h1 h2 _ _; omega
  | succ fuel ih =>
    intro i h1 h2 hlt hreach
    rw [scanAux_succ]
    have hacc : psum h i + h i = psum h (i + 1) := (psum_succ h i).symm
    rcases Nat.eq_or_lt_of_le h1 with heq | hlt2
    · subst heq
      rw [if_pos (by rw [hacc]; exact hreach)]
    · rw [if_neg (by rw [hacc]; exact Nat.not_le.mpr (hlt i (Nat.le_refl i) hlt2)), hacc]
      exact ih (i + 1) hlt2 (by omega) (fun j hj1 hj2 => hlt j (by omega) hj2) hreach

theorem scanAux_misses (h : Nat → Nat) (t : Nat) :
    ∀ fuel i, (∀ j, i ≤ j → j < i + fuel → psum h (j + 1) < t) →
      scanAux h t (psum h i) i fuel = i + fuel := by
  intro fuel
  induction fuel with
  | zero => intro i _; rfl
  | succ fuel ih =>
    intro i hlt
    rw [scanAux_succ]
    have hacc : psum h i + h i = psum h (i + 1) := (psum_succ h i).symm
    rw [if_neg (by rw [hacc]; exact Nat.not_le.mpr (hlt i (Nat.le_refl i) (by omega))), hacc]
    rw [ih (i + 1) (fun j hj1 hj2 => hlt j (by omega) (by omega))]
    omega

theorem runningSums_cons (acc a : Nat) (l : List Nat) :
    runningSums acc (a :: l) = (acc + a) :: runningSums (acc + a) l := rfl

theorem runningSums_chain (l : List Nat) :
    ∀ acc, List.Chain' (· ≤ ·) (acc :: runningSums acc l) := by
  induction l with
  | nil => intro acc; simp [runningSums]
  | cons a rest ih =>
    intro acc
    rw [runningSums_cons]
    exact List.chain'_cons.mpr ⟨Nat.le_add_right acc a, ih (acc + a)⟩

theorem runningSums_getLast (l : List Nat) :
    ∀ acc a, (runningSums acc (a :: l)).getLast? = some (acc + a + l.sum) := by
  induction l with
  | nil => intro acc a; simp [runningSums]
  | cons b rest ih =>
    intro acc a
    rw [runningSums_cons, runningSums_cons, List.getLast?_cons_cons,
      ← runningSums_cons, ih (acc + a) b]
    simp
    omega

theorem filter_map_sum (h : Nat → Nat) :
    ∀ n, (((List.range n).filter (fun i => h i != 0)).map h).sum = psum h n := by
  intro n
  induction n with
  | zero => rfl
  | succ n ih =>
    rw [List.range_succ, List.filter_append, List.map_append, List.sum_append, ih, psum_succ]
    by_cases hn : h n = 0
    · simp [List.filter, hn]
    · have hb : (h n != 0) = true := by simpa using hn
      simp [List.filter, hb]

theorem percentQ_mono (total a b : Nat) (hab : a ≤ b) :
    percentQ a total ≤ percentQ b total := by
  rcases Nat.eq_zero_or_pos total with h0 | h0
  · simp [percentQ, h0]
  · unfold percentQ
    have htot : (0 : ℚ) < (total : ℚ) := by exact_mod_cast h0
    have hab' : (a : ℚ) ≤ (b : ℚ) := by exact_mod_cast hab
    gcongr

theorem percentQ_total (total : Nat) (h : 0 < total) : percentQ total total = 100 := by
  unfold percentQ
  rw [div_self (by exact_mod_cast h.ne')]
  norm_num

theorem storeScore_conserve (v : Int) (s : Side) :
    sideSum (storeScore v s) = sideSum s + 1 := by
  unfold storeScore sideSum
  by_cases h1 : v < 0
  · rw [if_pos h1]
    show psum s.hist (MAX_SCORE + 1) + (s.invalid + 1)
      = psum s.hist (MAX_SCORE + 1) + s.invalid + 1
    omega
  · rw [if_neg h1]
    by_cases h2 : (MAX_SCORE : Int) < v
    · rw [if_pos h2]
      show psum (Function.update s.hist MAX_SCORE (s.hist MAX_SCORE + 1)) (MAX_SCORE + 1)
          + s.invalid = psum s.hist (MAX_SCORE + 1) + s.invalid + 1
      rw [psum_update s.hist MAX_SCORE (MAX_SCORE + 1) (by omega)]
      omega
    · rw [if_neg h2]
      show psum (Function.update s.hist v.toNat (s.hist v.toNat + 1)) (MAX_SCORE + 1)
          + s.invalid = psum s.hist (MAX_SCORE + 1) + s.invalid + 1
      rw [psum_update s.hist v.toNat (MAX_SCORE + 1) (by omega)]
      omega

theorem step_count_of_classified (ag : Aggregate) (line : List Char)
    (hc : classify line ≠ none) : (step ag line).count = ag.count + 1 := by
  unfold step
  cases h : classify line with
  | none => exact absurd h hc
  | some p => rfl

theorem step_conserve (ag : Aggregate) (line : List Char)
    (h1 : sideSum ag.inb = ag.count) (h2 : sideSum ag.outb = ag.count) :
    sideSum (step ag line).inb = (step ag line).count ∧
      sideSum (step ag line).outb = (step ag line).count := by
  unfold step
  cases h : classify line with
  | none => exact ⟨h1, h2⟩
  | some p =>
    obtain ⟨a, b⟩ := p
    dsimp only []
    rw [storeScore_conserve, storeScore_conserve, h1, h2]
    exact ⟨rfl, rfl⟩

theorem foldl_conserve (lines : List (List Char)) :
    ∀ ag : Aggregate, sideSum ag.inb = ag.count → sideSum ag.outb = ag.count →
      sideSum (lines.foldl step ag).inb = (lines.foldl step ag).count ∧
        sideSum (lines.foldl step ag).outb = (lines.foldl step ag).count := by
  induction lines with
  | nil => exact fun ag h1 h2 => ⟨h1, h2⟩
  | cons l rest ih =>
    intro ag h1 h2
    rw [List.foldl_cons]
    obtain ⟨g1, g2⟩ := step_conserve ag l h1 h2
    exact ih (step ag l) g1 g2

theorem sideSum_of_zero (s : Side) (h : s.hist = fun _ => 0) (h2 : s.invalid = 0) :
    sideSum s = 0 := by
  unfold sideSum
  rw [h, psum_zero_fun, h2]

theorem read_conserve (lines : List (List Char)) :
    sideSum (read_in_scores lines).inb = (read_in_scores lines).count ∧
      sideSum (read_in_scores lines).outb = (read_in_scores lines).count := by
  have h0 : sideSum initSide = 0 := sideSum_of_zero initSide rfl rfl
  unfold read_in_scores
  refine foldl_conserve lines initAgg ?_ ?_ <;> exact h0

theorem read_append_one (lines : List (List Char)) (line : List Char) :
    read_in_scores (lines ++ [line]) = step (read_in_scores lines) line := by
  unfold read_in_scores
  rw [List.foldl_append, List.foldl_cons, List.foldl_nil]

theorem psum_zero_eq (h : Nat → Nat) : psum h 0 = 0 := rfl

theorem medianScan_finds (h : Nat → Nat) (t m : Nat) (hm : m ≤ MAX_SCORE)
    (hleast : ∀ j, j < m → psum h (j + 1) < t) (hreach : t ≤ psum h (m + 1)) :
    medianScan h t = m := by
  unfold medianScan
  have h2 := scanAux_finds h t m (MAX_SCORE + 1) 0 (Nat.zero_le m) (by omega)
    (fun j _ hj => hleast j hj) hreach
  rwa [psum_zero_eq] at h2

theorem medianScan_misses (h : Nat → Nat) (t : Nat)
    (hmiss : ∀ j, j ≤ MAX_SCORE → psum h (j + 1) < t) :
    medianScan h t = MAX_SCORE + 1 := by
  unfold medianScan
  have h2 := scanAux_misses h t (MAX_SCORE + 1) 0 (fun j _ hj => hmiss j (by omega))
  rw [psum_zero_eq] at h2
  omega

/-! Claim theorems. -/

/-- Claim C1: every successfully classified line increments the shared total
counter exactly once — even a line such as "-1 -1" whose two sides are both
invalid — and, per side, the sum of all histogram bucket counts plus that
side's invalid counter always equals the total returned by
`read_in_scores`. -/
theorem read_in_scores_conservation (lines : List (List Char)) (line : List Char)
    (hc : classify line ≠ none) :
    (read_in_scores (lines ++ [line])).count = (read_in_scores lines).count + 1 ∧
      sideSum (read_in_scores (lines ++ [line])).inb
        = (read_in_scores (lines ++ [line])).count ∧
      sideSum (read_in_scores (lines ++ [line])).outb
        = (read_in_scores (lines ++ [line])).count ∧
      sideSum (read_in_scores lines).inb = (read_in_scores lines).count ∧
      sideSum (read_in_scores lines).outb = (read_in_scores lines).count := by
  obtain ⟨g1, g2⟩ := read_conserve (lines ++ [line])
  obtain ⟨g3, g4⟩ := read_conserve lines
  refine ⟨?_, g1, g2, g3, g4⟩
  rw [read_append_one, step_count_of_classified _ _ hc]

/-- Witness for the C1 theorem at the both-sides-invalid line "-1 -1". -/
theorem read_in_scores_conservation_witness :
    classify lineBothInvalid ≠ none ∧
      ((read_in_scores ([] ++ [lineBothInvalid])).count = (read_in_scores []).count + 1 ∧
        sideSum (read_in_scores ([] ++ [lineBothInvalid])).inb
          = (read_in_scores ([] ++ [lineBothInvalid])).count ∧
        sideSum (read_in_scores ([] ++ [lineBothInvalid])).outb
          = (read_in_scores ([] ++ [lineBothInvalid])).count ∧
        sideSum (read_in_scores []).inb = (read_in_scores []).count ∧
        sideSum (read_in_scores []).outb = (read_in_scores []).count) :=
  ⟨by decide, read_in_scores_conservation [] lineBothInvalid (by decide)⟩

/-- Claim C2: classification tries the three `sscanf` patterns in strict
priority order with the first match winning: two integers give
`(inbound, outbound)`; otherwise a parseable leading integer gives that
inbound with outbound invalid (sentinel `-1`); otherwise a literal `-`
followed by a parseable integer gives inbound invalid with that outbound.
In particular "5 -" classifies as `(5, invalid)` and "- 7" as
`(invalid, 7)`. -/
theorem classify_priority (s : List Char) :
    (∀ a b, scanTwoInts s = some (a, b) → classify s = some (a, b)) ∧
      (∀ a, scanTwoInts s = none → scanOneInt s = some a → classify s = some (a, -1)) ∧
      (∀ b, scanTwoInts s = none → scanOneInt s = none → scanDashInt s = some b →
        classify s = some (-1, b)) ∧
      classify line5dash = some (5, -1) ∧ classify lineDash7 = some (-1, 7) := by
  refine ⟨?_, ?_, ?_, by decide, by decide⟩
  · intro a b h1
    simp [classify, h1]
  · intro a h1 h2
    simp [classify, h1, h2]
  · intro b h1 h2 h3
    simp [classify, h1, h2, h3]

/-- Witness for the C2 theorem: the second pattern fires on "5 -". -/
theorem classify_priority_witness :
    (scanTwoInts line5dash = none ∧ scanOneInt line5dash = some 5) ∧
      classify line5dash = some (5, -1) :=
  ⟨⟨by decide, by decide⟩, (classify_priority line5dash).2.1 5 (by decide) (by decide)⟩

/-- Counterexample to claim C3 as stated: the line "5 abc" (integer first
token, non-numeric second token) is NOT ignored — `sscanf("%d")` succeeds on
it, so it is classified as inbound 5 with outbound invalid and counted. -/
theorem garbage_second_token_counted :
    classify line5abc = some (5, -1) ∧ (read_in_scores [line5abc]).count = 1 :=
  ⟨by decide, by decide⟩

/-- Claim C3 amended: a line on which all three `sscanf` patterns fail is
ignored entirely — the aggregate (histograms, invalid counters and total) is
unchanged; but a line whose first token parses as an integer matches the
second pattern even when the rest is garbage, so "5 abc" is counted as
inbound 5 with outbound invalid. -/
theorem malformed_skipped (lines : List (List Char)) (line : List Char)
    (hc : classify line = none) :
    read_in_scores (lines ++ [line]) = read_in_scores lines ∧
      classify line5abc = some (5, -1) := by
  constructor
  · rw [read_append_one]
    unfold step
    rw [hc]
  · decide

/-- Witness for the amended C3 theorem at the malformed line "abc". -/
theorem malformed_skipped_witness :
    classify lineAbc = none ∧
      (read_in_scores ([] ++ [lineAbc]) = read_in_scores [] ∧
        classify line5abc = some (5, -1)) :=
  ⟨by decide, malformed_skipped [] lineAbc (by decide)⟩

/-- Claim C4, divergence witness: with zero records the code does NOT
special-case the formulas — the `print_stats` percentage expression and
`avg_mean` both divide by zero (NaN in C, `none` in this embedding), so no
defined value is produced. -/
theorem zero_total_divides_by_zero :
    percent 0 0 = none ∧ avg_mean (fun _ => 0) 0 = none :=
  ⟨rfl, rfl⟩

/-- Claim C9: per side, a parsed value strictly above `MAX_SCORE` increments
the top bucket at index `MAX_SCORE` (saturating clamp, not discarded), and a
strictly negative value increments that side's invalid counter instead of any
bucket. -/
theorem storeScore_clamp_and_invalid (s : Side) (v : Int) :
    ((MAX_SCORE : Int) < v →
      storeScore v s
        = { s with hist := Function.update s.hist MAX_SCORE (s.hist MAX_SCORE + 1) }) ∧
      (v < 0 → storeScore v s = { s with invalid := s.invalid + 1 }) := by
  constructor
  · intro hv
    unfold storeScore
    rw [if_neg (by omega), if_pos hv]
  · intro hv
    unfold storeScore
    rw [if_pos hv]

/-- Witness for the C9 theorem at the out-of-range score 70000 and the
negative score -3. -/
theorem storeScore_clamp_witness :
    ((MAX_SCORE : Int) < 70000 ∧ (-3 : Int) < 0) ∧
      storeScore 70000 initSide
        = { initSide with
            hist := Function.update initSide.hist MAX_SCORE (initSide.hist MAX_SCORE + 1) } ∧
      storeScore (-3) initSide = { initSide with invalid := initSide.invalid + 1 } :=
  ⟨⟨by decide, by decide⟩,
    (storeScore_clamp_and_invalid initSide 70000).1 (by decide),
    (storeScore_clamp_and_invalid initSide (-3)).2 (by decide)⟩

/-- Claim C10: with zero records read and an all-zero histogram, `avg_median`
takes the even branch, the first scan stops immediately at index 0, the
second scan (threshold 1) never fires and leaves the index at
`MAX_SCORE + 1 = 65537`, and the function returns `(0 + 65537) / 2 =
32768.5`. -/
theorem avg_median_zero_records : avg_median (fun _ => 0) 0 = 65537 / 2 := by
  have hlow : medianScan (fun _ => 0) 0 = 0 :=
    medianScan_finds (fun _ => 0) 0 0 (Nat.zero_le _) (fun j hj => absurd hj (by omega))
      (Nat.zero_le _)
  have hup : medianScan (fun _ => 0) 1 = MAX_SCORE + 1 :=
    medianScan_misses (fun _ => 0) 1 (fun j _ => by rw [psum_zero_fun]; omega)
  unfold avg_median
  rw [if_neg (by omega)]
  rw [show (0 : Nat) / 2 = 0 from rfl, show (0 : Nat) / 2 + 1 = 1 from rfl, hlow, hup]
  rw [show MAX_SCORE + 1 = 65537 from by rw [MAX_SCORE]]
  norm_num

/-- Claim C5: for an even total `N > 0` whose histogram sums to `N`,
`avg_median` returns `(lo + hi) / 2`, where `lo` is the smallest score at
which the ascending running sum of bucket counts first reaches `N / 2` and
`hi` is the smallest score at which a second independent ascending scan first
reaches `N / 2 + 1`. -/
theorem avg_median_even_spec (h : Nat → Nat) (N lo hi : Nat)
    (heven : N % 2 = 0) (hpos : 0 < N)
    (hsum : psum h (MAX_SCORE + 1) = N)
    (hlo : N / 2 ≤ psum h (lo + 1))
    (hlo_least : ∀ j, j < lo → psum h (j + 1) < N / 2)
    (hhi : N / 2 + 1 ≤ psum h (hi + 1))
    (hhi_least : ∀ j, j < hi → psum h (j + 1) < N / 2 + 1) :
    avg_median h N = ((lo : ℚ) + (hi : ℚ)) / 2 := by
  have hlo_le : lo ≤ MAX_SCORE := by
    by_contra hcon
    have := hlo_least MAX_SCORE (by omega)
    omega
  have hhi_le : hi ≤ MAX_SCORE := by
    by_contra hcon
    have := hhi_least MAX_SCORE (by omega)
    omega
  have e1 : medianScan h (N / 2) = lo := medianScan_finds h (N / 2) lo hlo_le hlo_least hlo
  have e2 : medianScan h (N / 2 + 1) = hi :=
    medianScan_finds h (N / 2 + 1) hi hhi_le hhi_least hhi
  unfold avg_median
  rw [if_neg (by omega), e1, e2]

/-- Witness for the C5 theorem: histogram {0 ↦ 2, 5 ↦ 1, 10 ↦ 1}, total 4,
gives lo = 0, hi = 5 and median 2.5. -/
theorem avg_median_even_witness :
    psum exHistA (MAX_SCORE + 1) = 4 ∧ avg_median exHistA 4 = 5 / 2 := by
  have hsum : psum exHistA (MAX_SCORE + 1) = 4 := by
    rw [psum_high_zero exHistA 11
      (by intro i hi; unfold exHistA
          rw [if_neg (by omega), if_neg (by omega), if_neg (by omega)])
      (MAX_SCORE + 1) (by decide)]
    decide
  refine ⟨hsum, ?_⟩
  rw [avg_median_even_spec exHistA 4 0 5 (by decide) (by decide) hsum (by decide)
    (by intro j hj; omega) (by decide) (by decide)]
  norm_num

/-- Claim C6: for an odd total `N` whose histogram sums to `N`, `avg_median`
returns the score at which the ascending running sum of bucket counts first
reaches `(N + 1) / 2` (integer division). -/
theorem avg_median_odd_spec (h : Nat → Nat) (N m : Nat)
    (hodd : N % 2 = 1)
    (hsum : psum h (MAX_SCORE + 1) = N)
    (hreach : (N + 1) / 2 ≤ psum h (m + 1))
    (hleast : ∀ j, j < m → psum h (j + 1) < (N + 1) / 2) :
    avg_median h N = (m : ℚ) := by
  have hm_le : m ≤ MAX_SCORE := by
    by_contra hcon
    have := hleast MAX_SCORE (by omega)
    omega
  have e1 : medianScan h ((N + 1) / 2) = m :=
    medianScan_finds h ((N + 1) / 2) m hm_le hleast hreach
  unfold avg_median
  rw [if_pos hodd, e1]

/-- Witness for the C6 theorem: histogram {0 ↦ 2, 5 ↦ 1, 10 ↦ 2}, total 5,
gives median 5. -/
theorem avg_median_odd_witness :
    psum exHistB (MAX_SCORE + 1) = 5 ∧ avg_median exHistB 5 = (5 : ℚ) := by
  have hsum : psum exHistB (MAX_SCORE + 1) = 5 := by
    rw [psum_high_zero exHistB 11
      (by intro i hi; unfold exHistB
          rw [if_neg (by omega), if_neg (by omega), if_neg (by omega)])
      (MAX_SCORE + 1) (by decide)]
    decide
  refine ⟨hsum, ?_⟩
  rw [avg_median_odd_spec exHistB 5 5 (by decide) hsum (by decide) (by decide)]
  norm_num

/-- Claim C7: for a positive total `N`, `avg_mean` equals the weighted average
`(Σ over i in [0, MAX_SCORE] of i · count(i)) / N` over the full bucket
range, zero-count buckets contributing nothing. -/
theorem avg_mean_weighted (h : Nat → Nat) (N : Nat) (hN : 0 < N) :
    avg_mean h N
      = some ((∑ i in Finset.range (MAX_SCORE + 1), (i : ℚ) * (h i : ℚ)) / (N : ℚ)) := by
  unfold avg_mean
  rw [if_neg (by omega),
    foldl_range_add (fun i => (i : ℚ) * (h i : ℚ)) (MAX_SCORE + 1) 0, zero_add]

/-- Witness for the C7 theorem: histogram {5 ↦ 1, 10 ↦ 1}, total 2, gives
mean 7.5. -/
theorem avg_mean_weighted_witness :
    0 < 2 ∧ avg_mean exHistC 2 = some (15 / 2) := by
  refine ⟨by decide, ?_⟩
  rw [avg_mean_weighted exHistC 2 (by decide)]
  rw [sum_range_high_zero (fun i => (i : ℚ) * (exHistC i : ℚ)) 11 (MAX_SCORE + 1) (by decide)
    (by intro i hi
        simp only [exHistC]
        rw [if_neg (by omega), if_neg (by omega)]
        norm_num)]
  simp [Finset.sum_range_succ, exHistC]
  norm_num

theorem nonzeroScores_sum (h : Nat → Nat) :
    ((nonzeroScores h).map h).sum = psum h (MAX_SCORE + 1) := by
  unfold nonzeroScores
  exact filter_map_sum h (MAX_SCORE + 1)

/-- Claim C8: for an aggregate satisfying the conservation invariant with a
positive total, the emitted cumulative-percentage sequence (the invalid row
first, then one row per non-empty bucket in ascending score order) is
monotonically non-decreasing and its final value is exactly 100%. -/
theorem cumulative_mono_and_total (h : Nat → Nat) (invalid total : Nat)
    (hconsist : invalid + psum h (MAX_SCORE + 1) = total) (hpos : 0 < total) :
    List.Chain' (· ≤ ·) (cumulList h invalid total) ∧
      (cumulList h invalid total).getLast? = some 100 := by
  constructor
  · unfold cumulList
    have hch : List.Chain' (· ≤ ·) (runningSums 0 (invalid :: (nonzeroScores h).map h)) :=
      (runningSums_chain (invalid :: (nonzeroScores h).map h) 0).tail
    exact (List.chain'_map (fun r => percentQ r total)).mpr
      (hch.imp (fun a b hab => percentQ_mono total a b hab))
  · unfold cumulList
    rw [List.getLast?_map, runningSums_getLast ((nonzeroScores h).map h) 0 invalid]
    have harg : 0 + invalid + ((nonzeroScores h).map h).sum = total := by
      rw [nonzeroScores_sum h]
      omega
    rw [Option.map_some', harg, percentQ_total total hpos]

/-- Witness for the C8 theorem: histogram {0 ↦ 2, 5 ↦ 1} with one invalid
record, total 4. -/
theorem cumulative_mono_witness :
    (1 + psum exHistD (MAX_SCORE + 1) = 4 ∧ 0 < 4) ∧
      List.Chain' (· ≤ ·) (cumulList exHistD 1 4) ∧
      (cumulList exHistD 1 4).getLast? = some 100 := by
  have hc : 1 + psum exHistD (MAX_SCORE + 1) = 4 := by
    rw [psum_high_zero exHistD 6
      (by intro i hi; unfold exHistD; rw [if_neg (by omega), if_neg (by omega)])
      (MAX_SCORE + 1) (by decide)]
    decide
  exact ⟨⟨hc, by decide⟩, cumulative_mono_and_total exHistD 1 4 hc (by decide)⟩
